import Mathlib

/-!
Verification of the username-uniqueness subsystem of the HRMS repository:
the membership filter wrapper (src/utils/username_filter.rs), the expiring
positive cache (src/utils/username_cache.rs), and the availability resolver
and registration handler (src/auth/handlers.rs).

State that Rust keeps in process-wide statics (the cuckoo filter behind an
RwLock, the moka cache) is passed explicitly; the authoritative MySQL store
is an external collaborator and appears as oracle arguments describing the
result of each query the code issues. Wall-clock time is a Nat of seconds.
-/

namespace HRMS

/-- Rust str::to_lowercase as applied to identifier tokens (ASCII case
folding, which is what Char.toLower performs). -/
def rustLower (s : String) : String := ⟨s.data.map Char.toLower⟩

/-- Rust str::trim: drop leading and trailing whitespace. -/
def rustTrim (s : String) : String :=
  ⟨((s.data.dropWhile Char.isWhitespace).reverse.dropWhile
      Char.isWhitespace).reverse⟩

/-! ## Membership filter (src/utils/username_filter.rs) -/

/-- Modelled from the spec: the filter data structure itself is the external
autoscale cuckoo filter crate, which is not part of this repository. The spec
(sections 2 and 4.1) describes it as an approximate membership set with
transparent growth and no false negatives: add always records the element,
contains answers true for every element added and not since removed, and
remove deletes one previously added copy. We model the exact-membership core;
false positives are permitted by the spec but not forced by the model. -/
structure CuckooFilter where
  elems : List String
  deriving DecidableEq, Repr

def CuckooFilter.empty : CuckooFilter := ⟨[]⟩

def CuckooFilter.add (f : CuckooFilter) (s : String) : CuckooFilter :=
  ⟨s :: f.elems⟩

def CuckooFilter.mem (f : CuckooFilter) (s : String) : Bool :=
  f.elems.contains s

def CuckooFilter.removeOne (f : CuckooFilter) (s : String) : CuckooFilter :=
  ⟨f.elems.erase s⟩

namespace username_filter

/-- normalize from src/utils/username_filter.rs line 21. -/
def normalize (username : String) : String := rustLower username

/-- might_exist from src/utils/username_filter.rs lines 26 to 32: normalize,
take the read lock, query the filter. -/
def might_exist (f : CuckooFilter) (username : String) : Bool :=
  f.mem (normalize username)

/-- insert from src/utils/username_filter.rs lines 35 to 41. -/
def insert (f : CuckooFilter) (username : String) : CuckooFilter :=
  f.add (normalize username)

/-- remove from src/utils/username_filter.rs lines 44 to 50. -/
def remove (f : CuckooFilter) (username : String) : CuckooFilter :=
  f.removeOne (normalize username)

/-- insert_batch from src/utils/username_filter.rs lines 85 to 93: add every
already-normalized member of the batch under one write lock. -/
def insert_batch (f : CuckooFilter) (batch : List String) : CuckooFilter :=
  batch.foldl CuckooFilter.add f

end username_filter

/-- The shared RwLock around the filter: the filter plus whether the lock is
poisoned because a writer panicked while holding it. -/
structure FilterLock where
  poisoned : Bool
  filter : CuckooFilter
  deriving DecidableEq, Repr

/-- might_exist as called through the lock: src/utils/username_filter.rs line
30 unwraps the read guard with expect, which panics when the lock is
poisoned; none models that panic, some b a normal return. -/
def might_exist_locked (l : FilterLock) (username : String) : Option Bool :=
  if l.poisoned then none
  else some (username_filter.might_exist l.filter username)

/-! ## Expiring positive cache (src/utils/username_cache.rs) -/

/-- One moka cache entry: key, stored value, insertion time. -/
structure CacheEntry where
  key : String
  value : Bool
  insertedAt : Nat
  deriving DecidableEq, Repr

/-- The moka future cache with time-to-live eviction, modelled as a list of
entries, newest first, at most one entry per key. -/
structure MokaCache where
  entries : List CacheEntry
  deriving DecidableEq, Repr

/-- time_to_live from src/utils/username_cache.rs line 13: 24 hours. -/
def cacheTTL : Nat := 86400

def MokaCache.empty : MokaCache := ⟨[]⟩

/-- moka insert: store the value under the key, replacing any older entry for
the same key, stamped with the current time. -/
def MokaCache.insert (c : MokaCache) (k : String) (v : Bool) (now : Nat) :
    MokaCache :=
  ⟨⟨k, v, now⟩ :: c.entries.filter (fun e => !(e.key == k))⟩

/-- moka get: the stored value if an entry for the key is present and its TTL
has not elapsed; none on a miss or an expired entry. -/
def MokaCache.get (c : MokaCache) (k : String) (now : Nat) : Option Bool :=
  match c.entries.find? (fun e => e.key == k) with
  | some e => if now < e.insertedAt + cacheTTL then some e.value else none
  | none => none

namespace username_cache

/-- mark_taken from src/utils/username_cache.rs lines 18 to 22. -/
def mark_taken (c : MokaCache) (username : String) (now : Nat) : MokaCache :=
  c.insert (rustLower username) true now

/-- is_taken from src/utils/username_cache.rs lines 25 to 30. -/
def is_taken (c : MokaCache) (username : String) (now : Nat) : Bool :=
  (c.get (rustLower username) now).getD false

/-- batch_mark from src/utils/username_cache.rs lines 33 to 41: every member
of the batch is inserted as taken. -/
def batch_mark (c : MokaCache) (usernames : List String) (now : Nat) :
    MokaCache :=
  usernames.foldl (fun acc u => acc.insert (rustLower u) true now) c

end username_cache

/-! ## Authoritative store oracles -/

/-- Result of the existence check SELECT EXISTS query: ok b when the query
returns with answer b, err for a connectivity or timeout failure. -/
inductive StoreLookup where
  | ok (found : Bool)
  | err
  deriving DecidableEq, Repr

/-- Result of the INSERT INTO users statement: success, a database error
carrying an optional SQLSTATE code, or another sqlx error kind. -/
inductive InsertOutcome where
  | ok
  | dbErr (code : Option String)
  | otherErr
  deriving DecidableEq, Repr

inductive HttpStatus where
  | created
  | badRequest
  | conflict
  | internalError
  deriving DecidableEq, Repr

/-! ## Resolver and registration (src/auth/handlers.rs) -/

namespace handlers

/-- is_username_available from src/auth/handlers.rs lines 61 to 93:
true means available, false means taken. store gives the result of the
SELECT EXISTS lookup for the name the code binds. -/
def is_username_available (f : CuckooFilter) (c : MokaCache) (now : Nat)
    (store : String → StoreLookup) (username : String) : Bool :=
  let username := rustLower username
  if !(username_filter.might_exist f username) then true
  else if username_cache.is_taken c username now then false
  else
    let found := match store username with
      | .ok b => b
      | .err => true
    if found then false else true

/-- Result of insert_user: err none models Ok of unit, err (some r) the error
response, together with the filter and cache states afterwards. -/
structure InsertUserResult where
  err : Option HttpStatus
  filter : CuckooFilter
  cache : MokaCache
  deriving DecidableEq, Repr

/-- insert_user from src/auth/handlers.rs lines 20 to 57: run the INSERT; on
success the synchronous filter insert runs, but the mark_taken call on line
40 is an async call without an await, so its future is dropped unpolled and
the cache is left unchanged; SQLSTATE 23000 maps to Conflict and every other
error to a generic internal error, in both cases leaving filter and cache
untouched. -/
def insert_user (username : String) (f : CuckooFilter) (c : MokaCache)
    (_now : Nat) (res : InsertOutcome) : InsertUserResult :=
  match res with
  | .ok =>
      { err := none
        filter := username_filter.insert f username
        cache := c }
  | .dbErr code =>
      if code = some "23000" then
        { err := some .conflict, filter := f, cache := c }
      else
        { err := some .internalError, filter := f, cache := c }
  | .otherErr => { err := some .internalError, filter := f, cache := c }

/-- The observable result of the registration path: the HTTP response, the
filter and cache states afterwards, and what the handler did: whether the
availability cascade was consulted, whether the INSERT was attempted, and the
exact token bound into the INSERT when it was. -/
structure RegisterOutcome where
  response : HttpStatus
  filter : CuckooFilter
  cache : MokaCache
  availabilityChecked : Bool
  storeInsertAttempted : Bool
  storeInsertToken : Option String
  deriving DecidableEq, Repr

/-- register from src/auth/handlers.rs lines 98 to 122: trim, validate,
pre-check availability on the raw username, then call insert_user on the
trimmed username. -/
def register (rawUsername password : String) (f : CuckooFilter)
    (c : MokaCache) (now : Nat) (store : String → StoreLookup)
    (insertRes : InsertOutcome) : RegisterOutcome :=
  let username := rustTrim rawUsername
  if username = "" ∨ password = "" then
    { response := .badRequest, filter := f, cache := c
      availabilityChecked := false, storeInsertAttempted := false
      storeInsertToken := none }
  else if !(is_username_available f c now store rawUsername) then
    { response := .conflict, filter := f, cache := c
      availabilityChecked := true, storeInsertAttempted := false
      storeInsertToken := none }
  else
    let r := insert_user username f c now insertRes
    { response := match r.err with | none => .created | some e => e
      filter := r.filter, cache := r.cache
      availabilityChecked := true, storeInsertAttempted := true
      storeInsertToken := some username }

end handlers

/-! ## Bootstrap pipeline (src/utils/username_filter.rs lines 53 to 82) -/

namespace username_filter

/-- Loop of warmup_username_filter over the streamed rows. Each row is either
a username or a row fetch error. The accumulator carries the filter, the
batch being filled, and the batches flushed so far in reverse flush order;
the instrumented result returns the filter and the flushed batches in flush
order. A row error propagates immediately. -/
def warmupGo (batchSize : Nat) :
    List (Except Unit String) → CuckooFilter → List String →
      List (List String) → Except Unit (CuckooFilter × List (List String))
  | [], f, batch, flushed =>
      if batch.isEmpty then .ok (f, flushed.reverse)
      else .ok (insert_batch f batch, (batch :: flushed).reverse)
  | .error e :: _, _, _, _ => .error e
  | .ok u :: rest, f, batch, flushed =>
      if (batch ++ [normalize u]).length = batchSize then
        warmupGo batchSize rest (insert_batch f (batch ++ [normalize u])) []
          ((batch ++ [normalize u]) :: flushed)
      else
        warmupGo batchSize rest f (batch ++ [normalize u]) flushed

/-- warmup_username_filter from src/utils/username_filter.rs lines 53 to 82:
push the normalized username of each streamed row into the batch, flush via
insert_batch whenever the batch reaches batchSize, and flush the final
partial batch after stream exhaustion. -/
def warmup_username_filter (f : CuckooFilter)
    (rows : List (Except Unit String)) (batchSize : Nat) :
    Except Unit (CuckooFilter × List (List String)) :=
  warmupGo batchSize rows f [] []

end username_filter

/-! ## Operation sequences over the shared structures -/

/-- A write against the filter wrapper: a call to username_filter insert or
to username_filter remove. -/
inductive FilterOp where
  | ins (u : String)
  | rem (u : String)
  deriving DecidableEq, Repr

def applyFilterOp (f : CuckooFilter) : FilterOp → CuckooFilter
  | .ins u => username_filter.insert f u
  | .rem u => username_filter.remove f u

def runFilterOps (f : CuckooFilter) (ops : List FilterOp) : CuckooFilter :=
  ops.foldl applyFilterOp f

/-- A write against the cache: a call to mark_taken or to batch_mark, at some
time. These are the only writers; the warmup job also goes through
batch_mark. -/
inductive CacheOp where
  | mark (u : String) (t : Nat)
  | marks (us : List String) (t : Nat)
  deriving DecidableEq, Repr

def applyCacheOp (c : MokaCache) : CacheOp → MokaCache
  | .mark u t => username_cache.mark_taken c u t
  | .marks us t => username_cache.batch_mark c us t

/-- The cache state reached from the empty cache by a sequence of writes. -/
def runCacheOps (ops : List CacheOp) : MokaCache :=
  ops.foldl applyCacheOp MokaCache.empty

/-! ## Normalization lemmas -/

theorem toNat_ofNat_valid (n : Nat) (h : n.isValidChar) :
    (Char.ofNat n).toNat = n := by
  rw [Char.ofNat, dif_pos h]
  rfl

theorem toLower_in (c : Char) (h : c.toNat ≥ 65 ∧ c.toNat ≤ 90) :
    c.toLower = Char.ofNat (c.toNat + 32) := by
  simp only [Char.toLower]
  exact if_pos h

theorem toLower_out (c : Char) (h : ¬(c.toNat ≥ 65 ∧ c.toNat ≤ 90)) :
    c.toLower = c := by
  simp only [Char.toLower]
  exact if_neg h

theorem charToLower_idem (c : Char) : c.toLower.toLower = c.toLower := by
  by_cases h : c.toNat ≥ 65 ∧ c.toNat ≤ 90
  · rw [toLower_in c h]
    apply toLower_out
    rw [toNat_ofNat_valid (c.toNat + 32) (Or.inl (by omega))]
    omega
  · rw [toLower_out c h, toLower_out c h]

theorem rustLower_idem (s : String) : rustLower (rustLower s) = rustLower s := by
  unfold rustLower
  apply congrArg
  simp only [List.map_map]
  induction s.data with
  | nil => rfl
  | cons c l ih =>
      simp only [List.map_cons, Function.comp_apply, charToLower_idem, ih]

theorem cuckoo_mem_iff (f : CuckooFilter) (s : String) :
    f.mem s = true ↔ s ∈ f.elems := by
  simp [CuckooFilter.mem, List.contains, List.elem_iff]

/-! ## C1: the availability cascade -/

/-- Spec-side availability cascade, written from the words of spec section
4.3: normalize; a definitely-absent filter answer short-circuits to
available; a cache hit of taken short-circuits to unavailable; otherwise the
existence check of the authoritative store decides, returning the negation
of existence, with any lookup error resolved to unavailable. -/
def specIsAvailable (f : CuckooFilter) (c : MokaCache) (now : Nat)
    (store : String → StoreLookup) (raw : String) : Bool :=
  let t := rustLower raw
  if username_filter.might_exist f t = false then true
  else if username_cache.is_taken c t now = true then false
  else
    match store t with
    | .ok found => !found
    | .err => false

/-- C1: is_username_available normalizes the token, returns true when the
filter reports definitely absent, otherwise false when the cache reports
taken, otherwise the negation of the store existence answer, and false on
any store lookup error. Stated as equality with the cascade transcribed from
the spec. -/
theorem C1_resolver_cascade (f : CuckooFilter) (c : MokaCache) (now : Nat)
    (store : String → StoreLookup) (u : String) :
    handlers.is_username_available f c now store u =
      specIsAvailable f c now store u := by
  unfold handlers.is_username_available specIsAvailable
  cases hf : username_filter.might_exist f (rustLower u)
  · simp [hf]
  · cases hc : username_cache.is_taken c (rustLower u) now
    · cases hs : store (rustLower u) with
      | ok b => cases b <;> simp [hf, hc, hs]
      | err => simp [hf, hc, hs]
    · simp [hf, hc]

/-! ## C4: success path updates the filter but never the cache -/

/-- C4: evaluating the success path of insert_user at the failing input bob
from the empty states: the filter is updated, so MightContain answers true,
but the cache ends identical to the starting empty cache and IsTaken stays
false, because the mark_taken call at src/auth/handlers.rs line 40 is an
async call without an await whose future is dropped before it runs. -/
theorem C4_cache_unmarked_on_success :
    username_filter.might_exist
        (handlers.insert_user "bob" .empty .empty 0 .ok).filter "bob" = true
    ∧ username_cache.is_taken
        (handlers.insert_user "bob" .empty .empty 0 .ok).cache "bob" 0 =
        false
    ∧ (handlers.insert_user "bob" .empty .empty 0 .ok).cache =
        MokaCache.empty := by
  refine ⟨?_, rfl, rfl⟩
  simp [handlers.insert_user, username_filter.insert,
    username_filter.might_exist, username_filter.normalize,
    CuckooFilter.add, CuckooFilter.mem]

/-! ## C5: store errors during the claim leave filter and cache untouched -/

/-- C5: a uniqueness violation (SQLSTATE 23000) from the INSERT makes
insert_user answer Conflict, any other database error or other sqlx error a
generic internal error, and in every error case the filter and cache states
are returned unchanged. -/
theorem C5_insert_errors_no_mutation (t : String) (f : CuckooFilter)
    (c : MokaCache) (now : Nat) (code : Option String) :
    handlers.insert_user t f c now (.dbErr (some "23000")) =
        ⟨some .conflict, f, c⟩
    ∧ (code ≠ some "23000" →
        handlers.insert_user t f c now (.dbErr code) =
          ⟨some .internalError, f, c⟩)
    ∧ handlers.insert_user t f c now .otherErr =
        ⟨some .internalError, f, c⟩ := by
  refine ⟨rfl, fun h => ?_, rfl⟩
  simp [handlers.insert_user, h]

theorem C5_witness :
    handlers.insert_user "bob" .empty .empty 0 (.dbErr (some "42S02")) =
      ⟨some .internalError, .empty, .empty⟩ :=
  (C5_insert_errors_no_mutation "bob" .empty .empty 0 (some "42S02")).2.1
    (by decide)

/-! ## C10: input validation short-circuits everything -/

/-- C10: a registration whose username trims to empty or whose password is
empty gets BadRequest; the availability cascade is never consulted, the
INSERT is never attempted, and filter and cache are returned unchanged. -/
theorem C10_validation_short_circuit (rawUsername password : String)
    (f : CuckooFilter) (c : MokaCache) (now : Nat)
    (store : String → StoreLookup) (insertRes : InsertOutcome)
    (h : rustTrim rawUsername = "" ∨ password = "") :
    handlers.register rawUsername password f c now store insertRes =
      ⟨.badRequest, f, c, false, false, none⟩ := by
  unfold handlers.register
  rw [if_pos h]

theorem C10_witness :
    handlers.register "   " "pw" .empty .empty 0 (fun _ => .err) .ok =
      ⟨.badRequest, .empty, .empty, false, false, none⟩ :=
  C10_validation_short_circuit "   " "pw" .empty .empty 0 (fun _ => .err) .ok
    (Or.inl (by decide))

/-! ## C7: poisoned filter lock -/

/-- C7 counterexample: with the lock poisoned, a MightContain call does not
answer maybe-present (some true); the expect call panics, modelled as none,
so the call never returns a value at all. -/
theorem C7_counterexample :
    might_exist_locked ⟨true, .empty⟩ "alice" = none
    ∧ might_exist_locked ⟨true, .empty⟩ "alice" ≠ some true := by
  constructor
  · rfl
  · intro h
    simp [might_exist_locked] at h

/-- C7 amended: when the filter lock is observed poisoned, every might_exist
call panics in the expect unwrap (modelled as none) instead of degrading to
a maybe-present answer. -/
theorem C7_amended_poison_panics (l : FilterLock) (u : String)
    (h : l.poisoned = true) :
    might_exist_locked l u = none := by
  unfold might_exist_locked
  rw [h]
  rfl

theorem C7_witness : might_exist_locked ⟨true, .empty⟩ "bob" = none :=
  C7_amended_poison_panics ⟨true, .empty⟩ "bob" rfl

/-! ## C3: register gates the insert behind a pre-check -/

/-- C3 counterexample: a state where the filter and cache mark the name bob
taken but the store would have accepted the INSERT (its existence check says
not found and the INSERT outcome is success); register still answers
Conflict and never attempts the store insert, so a pre-check does gate the
attempt and the store uniqueness constraint is not the sole arbiter. -/
theorem C3_counterexample :
    (handlers.register "bob" "pw" (username_filter.insert .empty "bob")
        (username_cache.mark_taken .empty "bob" 0) 0
        (fun _ => .ok false) .ok).response = .conflict
    ∧ (handlers.register "bob" "pw" (username_filter.insert .empty "bob")
        (username_cache.mark_taken .empty "bob" 0) 0
        (fun _ => .ok false) .ok).storeInsertAttempted = false := by
  constructor <;> rfl

/-- C3 amended: after input validation, register consults the availability
cascade on the raw username; when it reports unavailable, register answers
Conflict without attempting the authoritative insert; only when it reports
available is the insert attempted, on the trimmed token, and the INSERT
outcome then decides the response. -/
theorem C3_amended_precheck_gates (rawUsername password : String)
    (f : CuckooFilter) (c : MokaCache) (now : Nat)
    (store : String → StoreLookup) (insertRes : InsertOutcome)
    (hv : ¬(rustTrim rawUsername = "" ∨ password = "")) :
    (handlers.is_username_available f c now store rawUsername = false →
      handlers.register rawUsername password f c now store insertRes =
        ⟨.conflict, f, c, true, false, none⟩)
    ∧ (handlers.is_username_available f c now store rawUsername = true →
        (handlers.register rawUsername password f c now store insertRes
            ).storeInsertAttempted = true
        ∧ (handlers.register rawUsername password f c now store insertRes
            ).storeInsertToken = some (rustTrim rawUsername)) := by
  unfold handlers.register
  rw [if_neg hv]
  constructor
  · intro ha
    rw [ha]
    rfl
  · intro ha
    rw [ha]
    exact ⟨rfl, rfl⟩

theorem C3_amended_witness :
    handlers.register "bob" "pw" (username_filter.insert .empty "bob")
        (username_cache.mark_taken .empty "bob" 0) 0
        (fun _ => .ok false) .ok =
      ⟨.conflict, username_filter.insert .empty "bob",
        username_cache.mark_taken .empty "bob" 0, true, false, none⟩ :=
  (C3_amended_precheck_gates "bob" "pw" (username_filter.insert .empty "bob")
      (username_cache.mark_taken .empty "bob" 0) 0
      (fun _ => .ok false) .ok (by decide)).1 (by decide)

/-! ## C2: no false negatives across later operations -/

/-- Membership of a normalized token survives any filter write that is not a
remove of a token with the same normalization. -/
theorem runFilterOps_preserves (t : String) (ops : List FilterOp) :
    ∀ f : CuckooFilter, rustLower t ∈ f.elems →
      (∀ u, FilterOp.rem u ∈ ops → rustLower u ≠ rustLower t) →
      rustLower t ∈ (runFilterOps f ops).elems := by
  induction ops with
  | nil => exact fun f hf _ => hf
  | cons op rest ih =>
      intro f hf hops
      have hrest : ∀ u, FilterOp.rem u ∈ rest → rustLower u ≠ rustLower t :=
        fun u hu => hops u (List.mem_cons_of_mem _ hu)
      cases op with
      | ins u =>
          exact ih _ (List.mem_cons_of_mem _ hf) hrest
      | rem u =>
          have hne : rustLower u ≠ rustLower t :=
            hops u (List.mem_cons_self _ _)
          refine ih _ ?_ hrest
          exact (List.mem_erase_of_ne (Ne.symm hne)).mpr hf

/-- C2: once insert has added a token, might_exist answers true after any
further sequence of inserts and of removes of tokens that do not normalize
to it. -/
theorem C2_no_false_negatives (t : String) (f : CuckooFilter)
    (ops : List FilterOp)
    (h : ∀ u, FilterOp.rem u ∈ ops → rustLower u ≠ rustLower t) :
    username_filter.might_exist
      (runFilterOps (username_filter.insert f t) ops) t = true := by
  rw [username_filter.might_exist, username_filter.normalize,
    cuckoo_mem_iff]
  refine runFilterOps_preserves t ops _ ?_ h
  exact List.mem_cons_self _ _

theorem C2_witness :
    username_filter.might_exist
      (runFilterOps (username_filter.insert .empty "Ann")
        [FilterOp.ins "Bob", FilterOp.rem "Carol"]) "Ann" = true :=
  C2_no_false_negatives "Ann" .empty [FilterOp.ins "Bob", FilterOp.rem "Carol"]
    (by
      intro u hu
      rcases List.mem_cons.mp hu with h1 | hu2
      · exact absurd h1 (by simp)
      · rcases List.mem_cons.mp hu2 with h2 | h3
        · cases h2
          decide
        · exact absurd h3 (List.not_mem_nil _))

/-! ## C6: case-folding normalization -/

/-- C6 counterexample: register hands the trimmed but original-case token to
the authoritative INSERT, not the case-folded token, so the component that
performs the store insert does not apply the normalization. -/
theorem C6_counterexample :
    (handlers.register "Alice" "pw" .empty .empty 0
        (fun _ => .ok false) .ok).storeInsertToken = some "Alice"
    ∧ some (rustLower "Alice") ≠ some "Alice" := by
  constructor
  · rfl
  · decide

/-- C6 amended: availability is decided entirely by the lowercased token:
case variants of a token always receive identical IsAvailable answers, and
IsAvailable is invariant under lowercasing its argument, because the filter,
the cache, and the store lookup of the availability check all case-fold;
after a successful claim the synchronously updated filter holds the
lowercased token, so no case variant of the claimed token short-circuits to
available at the filter tier. The counterexample forces the exceptions: the
token handed to the authoritative INSERT stays in its original case, and the
cache is not marked on success (the mark_taken future is dropped), so
variant unavailability rests on the authoritative store, not on the
in-memory tiers. -/
theorem C6_amended_normalization (t v u : String) (f : CuckooFilter)
    (c : MokaCache) (now : Nat) (store store2 : String → StoreLookup)
    (h : rustLower v = rustLower t) :
    username_filter.might_exist
        (handlers.insert_user t f c now .ok).filter v = true
    ∧ handlers.is_username_available f c now store v =
        handlers.is_username_available f c now store t
    ∧ handlers.is_username_available f c now store2 u =
        handlers.is_username_available f c now store2 (rustLower u) := by
  refine ⟨?_, ?_, ?_⟩
  · simp [handlers.insert_user, username_filter.insert,
      username_filter.might_exist, username_filter.normalize,
      CuckooFilter.add, CuckooFilter.mem, h]
  · unfold handlers.is_username_available
    rw [h]
  · unfold handlers.is_username_available
    simp only [rustLower_idem]

theorem C6_amended_witness :
    username_filter.might_exist
        (handlers.insert_user "Alice" .empty .empty 0 .ok).filter "ALICE" =
        true
    ∧ handlers.is_username_available .empty .empty 0 (fun _ => .err)
          "ALICE" =
        handlers.is_username_available .empty .empty 0 (fun _ => .err)
          "Alice"
    ∧ handlers.is_username_available .empty .empty 0 (fun _ => .err) "Bob" =
        handlers.is_username_available .empty .empty 0 (fun _ => .err)
          (rustLower "Bob") :=
  C6_amended_normalization "Alice" "ALICE" "Bob" .empty .empty 0
    (fun _ => .err) (fun _ => .err) (by decide)

/-! ## C9: the cache is a pure positive accelerator -/

/-- A moka insert of a taken marker keeps every stored value true and keeps
keys pairwise distinct. -/
theorem cache_insert_wf (c : MokaCache) (k : String) (now : Nat)
    (h1 : ∀ e ∈ c.entries, e.value = true)
    (h2 : c.entries.Pairwise (fun a b => a.key ≠ b.key)) :
    (∀ e ∈ (c.insert k true now).entries, e.value = true)
    ∧ (c.insert k true now).entries.Pairwise (fun a b => a.key ≠ b.key) := by
  constructor
  · intro e he
    rcases List.mem_cons.mp he with rfl | hf
    · rfl
    · exact h1 e (List.mem_of_mem_filter hf)
  · refine List.Pairwise.cons ?_ (h2.filter _)
    intro e he hk
    have hpred := List.of_mem_filter he
    simp only [← hk, beq_self_eq_true, Bool.not_true] at hpred
    cases hpred

/-- batch_mark preserves the invariant. -/
theorem cache_batch_wf (us : List String) (now : Nat) :
    ∀ c : MokaCache,
      (∀ e ∈ c.entries, e.value = true) →
      c.entries.Pairwise (fun a b => a.key ≠ b.key) →
      (∀ e ∈ (username_cache.batch_mark c us now).entries, e.value = true)
      ∧ (username_cache.batch_mark c us now).entries.Pairwise
          (fun a b => a.key ≠ b.key) := by
  induction us with
  | nil => exact fun c h1 h2 => ⟨h1, h2⟩
  | cons u rest ih =>
      intro c h1 h2
      have hstep := cache_insert_wf c (rustLower u) now h1 h2
      exact ih _ hstep.1 hstep.2

/-- Every cache state reachable from the empty cache through mark_taken and
batch_mark satisfies the invariant. -/
theorem runCacheOps_wf (ops : List CacheOp) :
    (∀ e ∈ (runCacheOps ops).entries, e.value = true)
    ∧ (runCacheOps ops).entries.Pairwise (fun a b => a.key ≠ b.key) := by
  suffices hgen : ∀ c : MokaCache,
      (∀ e ∈ c.entries, e.value = true) →
      c.entries.Pairwise (fun a b => a.key ≠ b.key) →
      (∀ e ∈ (ops.foldl applyCacheOp c).entries, e.value = true)
      ∧ (ops.foldl applyCacheOp c).entries.Pairwise
          (fun a b => a.key ≠ b.key) by
    refine hgen MokaCache.empty ?_ ?_
    · intro e he
      cases he
    · exact List.Pairwise.nil
  induction ops with
  | nil => exact fun c h1 h2 => ⟨h1, h2⟩
  | cons op rest ih =>
      intro c h1 h2
      cases op with
      | mark u t =>
          have hstep := cache_insert_wf c (rustLower u) t h1 h2
          exact ih _ hstep.1 hstep.2
      | marks us t =>
          have hstep := cache_batch_wf us t c h1 h2
          exact ih _ hstep.1 hstep.2

/-- In a list of entries with pairwise distinct keys, an entry is determined
by its key. -/
theorem pairwise_key_unique :
    ∀ {l : List CacheEntry},
      l.Pairwise (fun a b => a.key ≠ b.key) →
      ∀ {e e' : CacheEntry}, e ∈ l → e' ∈ l → e.key = e'.key → e = e' := by
  intro l
  induction l with
  | nil =>
      intro _ e e' he
      cases he
  | cons a rest ih =>
      intro hp e e' he he' hk
      have hhead := (List.pairwise_cons.mp hp).1
      have htail := (List.pairwise_cons.mp hp).2
      rcases List.mem_cons.mp he with he1 | he2
      · rcases List.mem_cons.mp he' with hf1 | hf2
        · rw [he1, hf1]
        · refine absurd ?_ (hhead e' hf2)
          rw [← he1]
          exact hk
      · rcases List.mem_cons.mp he' with hf1 | hf2
        · refine absurd ?_ (hhead e he2)
          rw [← hf1]
          exact hk.symm
        · exact ih htail he2 hf2 hk

/-- C9: in every reachable cache state, all stored markers are true (no
explicit negatives), and is_taken answers true exactly when an unexpired
entry for the normalized token is present; an absent or expired entry
yields false. -/
theorem C9_positive_cache (ops : List CacheOp) (u : String) (now : Nat) :
    (∀ e ∈ (runCacheOps ops).entries, e.value = true)
    ∧ (username_cache.is_taken (runCacheOps ops) u now = true ↔
        ∃ e ∈ (runCacheOps ops).entries,
          e.key = rustLower u ∧ now < e.insertedAt + cacheTTL) := by
  obtain ⟨h1, h2⟩ := runCacheOps_wf ops
  refine ⟨h1, ?_⟩
  unfold username_cache.is_taken MokaCache.get
  cases hfind : (runCacheOps ops).entries.find?
      (fun e => e.key == rustLower u) with
  | none =>
      simp only [Option.getD_none]
      constructor
      · intro hfalse
        cases hfalse
      · rintro ⟨e, he, hk, -⟩
        have := List.find?_eq_none.mp hfind e he
        simp [hk] at this
  | some e =>
      have hmem := List.mem_of_find?_eq_some hfind
      have hkey : e.key = rustLower u := by
        have := List.find?_some hfind
        simpa using this
      by_cases hlt : now < e.insertedAt + cacheTTL
      · simp only [if_pos hlt, Option.getD_some, h1 e hmem, true_iff]
        exact ⟨e, hmem, hkey, hlt⟩
      · simp only [if_neg hlt, Option.getD_none]
        constructor
        · intro hfalse
          cases hfalse
        · rintro ⟨e', he', hk', hl'⟩
          have heq : e' = e :=
            pairwise_key_unique h2 he' hmem (hk'.trans hkey.symm)
          exact (hlt (heq ▸ hl')).elim

/-! ## C8: bootstrap streaming and batching -/

/-- The batch decomposition the warmup loop performs: fill the pending batch
one element at a time, emit it when it reaches the batch size, and emit the
final nonempty partial batch at the end. -/
def flushSplit (b : Nat) : List String → List String → List (List String)
  | pending, [] => if pending.isEmpty then [] else [pending]
  | pending, u :: rest =>
      if (pending ++ [u]).length = b then
        (pending ++ [u]) :: flushSplit b [] rest
      else
        flushSplit b (pending ++ [u]) rest

theorem insert_batch_append (f : CuckooFilter) (x y : List String) :
    username_filter.insert_batch f (x ++ y) =
      username_filter.insert_batch (username_filter.insert_batch f x) y := by
  simp [username_filter.insert_batch, List.foldl_append]

theorem insert_batch_elems (l : List String) :
    ∀ f : CuckooFilter,
      (username_filter.insert_batch f l).elems = l.reverse ++ f.elems := by
  induction l with
  | nil =>
      intro f
      simp [username_filter.insert_batch]
  | cons a rest ih =>
      intro f
      have : username_filter.insert_batch f (a :: rest) =
          username_filter.insert_batch (f.add a) rest := rfl
      rw [this, ih (f.add a)]
      simp [CuckooFilter.add]

/-- On an error-free stream, the warmup loop computes the filter obtained by
adding the pending batch and every normalized streamed name, and flushes
exactly the batches flushSplit describes. -/
theorem warmupGo_ok (b : Nat) (hb : 0 < b) (names : List String) :
    ∀ (f : CuckooFilter) (batch : List String)
      (flushed : List (List String)), batch.length < b →
      username_filter.warmupGo b (names.map Except.ok) f batch flushed =
        .ok (username_filter.insert_batch f
              (batch ++ names.map username_filter.normalize),
            flushed.reverse ++
              flushSplit b batch (names.map username_filter.normalize)) := by
  induction names with
  | nil =>
      intro f batch flushed _
      simp only [List.map_nil, List.append_nil]
      unfold username_filter.warmupGo flushSplit
      by_cases hemp : batch.isEmpty
      · have hnil : batch = [] := List.isEmpty_iff.mp hemp
        rw [if_pos hemp, if_pos hemp, hnil]
        simp [username_filter.insert_batch]
      · rw [if_neg hemp, if_neg hemp]
        simp [List.reverse_cons]
  | cons u rest ih =>
      intro f batch flushed hlen
      simp only [List.map_cons]
      unfold username_filter.warmupGo
      by_cases hfull :
          (batch ++ [username_filter.normalize u]).length = b
      · rw [if_pos hfull]
        rw [ih (username_filter.insert_batch f
              (batch ++ [username_filter.normalize u])) []
            ((batch ++ [username_filter.normalize u]) :: flushed)
            (by simpa using hb)]
        have hsplit : flushSplit b batch
            (username_filter.normalize u ::
              rest.map username_filter.normalize) =
            (batch ++ [username_filter.normalize u]) ::
              flushSplit b [] (rest.map username_filter.normalize) := by
          simp only [flushSplit]
          rw [if_pos hfull]
        have hl1 : batch ++ username_filter.normalize u ::
            rest.map username_filter.normalize =
            (batch ++ [username_filter.normalize u]) ++
              rest.map username_filter.normalize := List.append_cons _ _ _
        rw [hsplit, hl1,
          insert_batch_append f (batch ++ [username_filter.normalize u])
            (rest.map username_filter.normalize),
          List.nil_append, List.reverse_cons, List.append_assoc,
          List.singleton_append]
      · rw [if_neg hfull]
        have hlt : (batch ++ [username_filter.normalize u]).length < b := by
          rw [List.length_append, List.length_cons, List.length_nil]
            at hfull ⊢
          omega
        rw [ih f (batch ++ [username_filter.normalize u]) flushed hlt]
        have hsplit : flushSplit b batch
            (username_filter.normalize u ::
              rest.map username_filter.normalize) =
            flushSplit b (batch ++ [username_filter.normalize u])
              (rest.map username_filter.normalize) := by
          simp only [flushSplit]
          rw [if_neg hfull]
        have hl1 : batch ++ username_filter.normalize u ::
            rest.map username_filter.normalize =
            (batch ++ [username_filter.normalize u]) ++
              rest.map username_filter.normalize := List.append_cons _ _ _
        rw [hsplit, hl1]

/-- The flushed batches have length b except for one final partial batch
holding the remainder. -/
theorem flushSplit_sizes (b : Nat) (hb : 0 < b) (l : List String) :
    ∀ pending : List String, pending.length < b →
      (flushSplit b pending l).map List.length =
        List.replicate ((pending.length + l.length) / b) b ++
          (if (pending.length + l.length) % b = 0 then []
           else [(pending.length + l.length) % b]) := by
  induction l with
  | nil =>
      intro pending hp
      simp only [flushSplit, List.length_nil, Nat.add_zero]
      by_cases hemp : pending.isEmpty
      · have hnil : pending = [] := List.isEmpty_iff.mp hemp
        subst hnil
        simp
      · rw [if_neg hemp]
        have hp0 : pending.length ≠ 0 := by
          intro h0
          exact hemp (List.isEmpty_iff_length_eq_zero.mpr h0)
        rw [Nat.div_eq_of_lt hp, Nat.mod_eq_of_lt hp]
        simp [hp0]
  | cons u rest ih =>
      intro pending hp
      simp only [flushSplit, List.length_cons]
      by_cases hfull : (pending ++ [u]).length = b
      · rw [if_pos hfull]
        have hlen : pending.length + 1 = b := by
          rw [List.length_append, List.length_cons, List.length_nil] at hfull
          omega
        have hzero : (0 : Nat) < b := hb
        rw [List.map_cons, ih [] (by simpa using hb)]
        have htot : pending.length + (rest.length + 1) = rest.length + b := by
          omega
        rw [htot, Nat.add_div_right _ hb, Nat.add_mod_right,
          List.length_nil, Nat.zero_add, List.replicate_succ, hfull]
        rfl
      · rw [if_neg hfull]
        have hlt : (pending ++ [u]).length < b := by
          rw [List.length_append, List.length_cons, List.length_nil]
            at hfull ⊢
          omega
        rw [ih (pending ++ [u]) hlt]
        have harith : (pending ++ [u]).length + rest.length =
            pending.length + (rest.length + 1) := by
          rw [List.length_append, List.length_cons, List.length_nil]
          omega
        rw [harith]

/-- C8: on an error-free stream of n identifiers with a positive batch size
b, the bootstrap completes, inserts every normalized identifier into the
filter, and flushes full batches of exactly b as they fill plus one final
partial batch of n mod b identifiers when the remainder is nonzero;
MightContain answers true for every streamed identifier afterwards. -/
theorem C8_bootstrap_stream (names : List String) (b : Nat) (hb : 0 < b)
    (f : CuckooFilter) :
    username_filter.warmup_username_filter f (names.map Except.ok) b =
      .ok (username_filter.insert_batch f
            (names.map username_filter.normalize),
          flushSplit b [] (names.map username_filter.normalize))
    ∧ (flushSplit b [] (names.map username_filter.normalize)).map
        List.length =
        List.replicate (names.length / b) b ++
          (if names.length % b = 0 then [] else [names.length % b])
    ∧ ∀ u ∈ names,
        username_filter.might_exist
          (username_filter.insert_batch f
            (names.map username_filter.normalize)) u = true := by
  refine ⟨?_, ?_, ?_⟩
  · have := warmupGo_ok b hb names f [] [] (by simpa using hb)
    simpa [username_filter.warmup_username_filter] using this
  · have := flushSplit_sizes b hb (names.map username_filter.normalize) []
      (by simpa using hb)
    simpa using this
  · intro u hu
    rw [username_filter.might_exist, cuckoo_mem_iff, insert_batch_elems]
    refine List.mem_append.mpr (Or.inl ?_)
    rw [List.mem_reverse]
    exact List.mem_map_of_mem _ hu

theorem C8_witness :
    0 < 2
    ∧ (username_filter.warmup_username_filter .empty
          (["Ann", "Bob", "Cy"].map Except.ok) 2 =
        .ok (username_filter.insert_batch .empty
              (["Ann", "Bob", "Cy"].map username_filter.normalize),
            flushSplit 2 [] (["Ann", "Bob", "Cy"].map
              username_filter.normalize))
      ∧ (flushSplit 2 [] (["Ann", "Bob", "Cy"].map
            username_filter.normalize)).map List.length =
          List.replicate (["Ann", "Bob", "Cy"].length / 2) 2 ++
            (if ["Ann", "Bob", "Cy"].length % 2 = 0 then []
             else [["Ann", "Bob", "Cy"].length % 2])
      ∧ ∀ u ∈ ["Ann", "Bob", "Cy"],
          username_filter.might_exist
            (username_filter.insert_batch .empty
              (["Ann", "Bob", "Cy"].map username_filter.normalize)) u =
            true) :=
  ⟨by decide, C8_bootstrap_stream ["Ann", "Bob", "Cy"] 2 (by decide) .empty⟩
